import Mathlib

/-!
Shallow embedding of the MITRE ATT&CK coverage tracker (src/app.js, with the
second near-duplicate copy src/unnamed/part_000 as the canonical variant for
the corpus-metadata extraction).  JS strings are modeled as Lean strings with
character-list helpers standing in for the position-based JS string methods;
JS numbers arising in the coverage computations are modeled as rationals,
with Option used where the source can produce NaN; code paths that throw a
JS exception are modeled with Except.
-/

/-- Models String.prototype.trim: whitespace stripped from both ends. -/
def jsTrim (s : String) : String :=
  String.mk (((s.data.dropWhile Char.isWhitespace).reverse.dropWhile Char.isWhitespace).reverse)

/-- Models String.prototype.toUpperCase on the character range used here. -/
def jsToUpper (s : String) : String :=
  String.mk (s.data.map Char.toUpper)

/-- Models String.prototype.split with separator ".", on the character list
of the string: "a.b".split yields ["a","b"], "".split yields [""]. -/
def splitCharsOnDot : List Char → List (List Char)
  | [] => [[]]
  | c :: cs =>
    if c = '.' then [] :: splitCharsOnDot cs
    else
      match splitCharsOnDot cs with
      | [] => [[c]]
      | p :: ps => (c :: p) :: ps

/-- A user detection record.  The source stores these as plain JS objects;
createdAt is Option because the edit path of saveDetection builds the
replacement object without a createdAt field. -/
structure Detection where
  id : String
  name : String
  description : String
  platform : String
  severity : String
  isActive : Bool
  technique1 : String
  technique2 : String
  technique3 : String
  createdAt : Option String
  updatedAt : String
deriving DecidableEq

/-- A normalized technique, as built by processAttackData.  Fields copied
from possibly-absent JS object fields are Option; the tactics list holds the
phase_name values, each itself possibly absent. -/
structure Technique where
  id : String
  stixId : Option String
  name : Option String
  description : Option String
  isSubTechnique : Bool
  parentId : Option String
  tactics : List (Option String)
  platforms : List String
  url : Option String
deriving DecidableEq

/-- A normalized tactic, as built by processAttackData. -/
structure Tactic where
  id : Option String
  name : Option String
  shortName : Option String
  description : Option String
deriving DecidableEq

/-- getDetectionRulesForTechnique from the source: number of active
detections one of whose three technique slots equals the given id. -/
def getDetectionRulesForTechnique (dets : List Detection) (techniqueId : String) : Nat :=
  (dets.filter fun det =>
    det.isActive &&
      (det.technique1 == techniqueId || det.technique2 == techniqueId ||
        det.technique3 == techniqueId)).length

/-- getTechniqueStatus from the source. -/
def getTechniqueStatus (dets : List Detection) (technique : Technique) : String :=
  if getDetectionRulesForTechnique dets technique.id > 0 then "detected" else "not detected"

/-- calculateCoverage from the source: 1.0 when detected, else 0.0. -/
def calculateCoverage (dets : List Detection) (technique : Technique) : ℚ :=
  if getTechniqueStatus dets technique = "detected" then 1 else 0

/-- The totalCoverage accumulation loop shared by renderDashboard and
renderTacticCoverage. -/
def totalCoverage (dets : List Detection) (techs : List Technique) : ℚ :=
  (techs.map (calculateCoverage dets)).sum

/-- Models JS division of the quantities occurring here: none stands for the
non-finite results; the only such case reachable below is 0/0, which is NaN. -/
def jsDiv (a : ℚ) (b : ℚ) : Option ℚ := if b = 0 then none else some (a / b)

/-- The overall coverage ratio computed by renderDashboard:
totalCoverage divided by the number of techniques, with no emptiness guard. -/
def overallCoverage (techs : List Technique) (dets : List Detection) : Option ℚ :=
  jsDiv (totalCoverage dets techs) techs.length

/-- The per-tactic coverage percentage computed by renderTacticCoverage:
the filter keeps every technique whose tactics list contains the tactic
shortName (sub-techniques included), and the empty case is guarded to 0. -/
def tacticCoveragePercent (tactic : Tactic) (techs : List Technique) (dets : List Detection) : ℚ :=
  let tacticTechniques := techs.filter fun tech => tech.tactics.contains tactic.shortName
  if tacticTechniques.length > 0 then
    (totalCoverage dets tacticTechniques / tacticTechniques.length) * 100
  else 0

/-- Stated from the words of the spec, for comparison with the source
definitions: the unweighted arithmetic mean of coverage values over the
whole corpus, defined as 0 on an empty corpus. -/
def overallCoverageSpec (techs : List Technique) (dets : List Detection) : ℚ :=
  if techs.length = 0 then 0 else (techs.map (calculateCoverage dets)).sum / techs.length

/-- Stated from the words of the spec: the arithmetic mean of coverage
values over the techniques belonging to a tactic, 0 for an empty set. -/
def tacticCoverageSpecMean (tactic : Tactic) (techs : List Technique) (dets : List Detection) : ℚ :=
  let ts := techs.filter fun tech => tech.tactics.contains tactic.shortName
  if ts.length = 0 then 0 else (ts.map (calculateCoverage dets)).sum / ts.length

/-- Number of technique reference slots of a detection that equal the given
id (a detection has exactly three slots in the source). -/
def slotMatchCount (det : Detection) (techniqueId : String) : Nat :=
  (if det.technique1 = techniqueId then 1 else 0) +
    (if det.technique2 = techniqueId then 1 else 0) +
    (if det.technique3 = techniqueId then 1 else 0)

lemma detectionPred_eq_true_iff (det : Detection) (tid : String) :
    (det.isActive &&
      (det.technique1 == tid || det.technique2 == tid || det.technique3 == tid)) = true ↔
      det.isActive = true ∧
        (det.technique1 = tid ∨ det.technique2 = tid ∨ det.technique3 = tid) := by
  simp [Bool.and_eq_true, Bool.or_eq_true, or_assoc]

lemma detectionCount_pos_iff (dets : List Detection) (tid : String) :
    0 < getDetectionRulesForTechnique dets tid ↔
      ∃ d ∈ dets, d.isActive = true ∧
        (d.technique1 = tid ∨ d.technique2 = tid ∨ d.technique3 = tid) := by
  unfold getDetectionRulesForTechnique
  rw [List.length_pos_iff_exists_mem]
  constructor
  · rintro ⟨d, hd⟩
    rw [List.mem_filter] at hd
    exact ⟨d, hd.1, (detectionPred_eq_true_iff d tid).mp hd.2⟩
  · rintro ⟨d, hd, hP⟩
    exact ⟨d, List.mem_filter.mpr ⟨hd, (detectionPred_eq_true_iff d tid).mpr hP⟩⟩

/-- Claim C1: a technique has status "detected" exactly when some active
detection references its id in one of its technique slots; the detection
count is the number of such active matching detections; and an inactive
detection never contributes to the count. -/
theorem coverage_status_iff_active_match (dets : List Detection) (t : Technique) :
    (getTechniqueStatus dets t = "detected" ↔
      ∃ d ∈ dets, d.isActive = true ∧
        (d.technique1 = t.id ∨ d.technique2 = t.id ∨ d.technique3 = t.id)) ∧
    (getDetectionRulesForTechnique dets t.id =
      (dets.filter fun d => decide (d.isActive = true ∧
        (d.technique1 = t.id ∨ d.technique2 = t.id ∨ d.technique3 = t.id))).length) ∧
    (∀ d : Detection, d.isActive = false →
      getDetectionRulesForTechnique (d :: dets) t.id =
        getDetectionRulesForTechnique dets t.id) := by
  refine ⟨?_, ?_, ?_⟩
  · rw [← detectionCount_pos_iff dets t.id]
    unfold getTechniqueStatus
    by_cases h : 0 < getDetectionRulesForTechnique dets t.id
    · simp [h]
    · have hne : ("not detected" : String) ≠ "detected" := by decide
      simp [h, hne]
  · unfold getDetectionRulesForTechnique
    congr 1
    apply List.filter_congr
    intro d _
    rw [Bool.eq_iff_iff, detectionPred_eq_true_iff, decide_eq_true_eq]
  · intro d hd
    unfold getDetectionRulesForTechnique
    simp [List.filter_cons, hd]

/-- A sample technique used by the concrete witnesses below. -/
def demoTechnique : Technique :=
  ⟨"T1059", some "attack-pattern--x1", some "Command and Scripting Interpreter",
    some "", false, none, [some "execution"], ["Windows"], some ""⟩

/-- A sample active detection whose first two slots both reference T1059. -/
def demoDetection : Detection :=
  ⟨"det_1", "Process creation monitor", "", "Windows", "high", true,
    "T1059", "T1059", "", some "2024-01-01", "2024-01-01"⟩

/-- A sample inactive detection referencing T1059. -/
def demoInactiveDetection : Detection :=
  ⟨"det_2", "Disabled rule", "", "Linux", "low", false,
    "T1059", "", "", some "2024-01-02", "2024-01-02"⟩

theorem coverage_status_iff_active_match_witness :
    getDetectionRulesForTechnique (demoInactiveDetection :: [demoDetection]) "T1059" =
      getDetectionRulesForTechnique [demoDetection] "T1059" :=
  (coverage_status_iff_active_match [demoDetection] demoTechnique).2.2
    demoInactiveDetection rfl

/-- Claim C2 (evaluation at the failing input, plus the agreement away from
it): on an empty technique corpus the dashboard computation divides 0 by 0,
i.e. produces NaN (modeled as none) instead of the 0 the spec requires; on
every non-empty corpus it agrees with the spec-side arithmetic mean. -/
theorem overallCoverage_empty_is_nan :
    overallCoverage [] [] = none ∧
      ∀ (techs : List Technique) (dets : List Detection), techs ≠ [] →
        overallCoverage techs dets = some (overallCoverageSpec techs dets) := by
  constructor
  · rfl
  · intro techs dets hne
    have hlen : techs.length ≠ 0 := by
      simpa [List.length_eq_zero] using hne
    have hq : ((techs.length : ℚ)) ≠ 0 := by
      exact_mod_cast hlen
    unfold overallCoverage overallCoverageSpec jsDiv totalCoverage
    rw [if_neg hq, if_neg hlen]

theorem overallCoverage_empty_is_nan_witness :
    overallCoverage [demoTechnique] [demoDetection] =
      some (overallCoverageSpec [demoTechnique] [demoDetection]) :=
  overallCoverage_empty_is_nan.2 [demoTechnique] [demoDetection] (by decide)

/-- Claim C3: the per-tactic coverage percentage rendered by the dashboard
is exactly one hundred times the arithmetic mean of coverage values over
every technique (parent or sub-technique) whose tactics list contains the
tactic shortName, the mean of an empty set being 0 rather than NaN. -/
theorem tacticCoverage_eq_hundred_times_mean
    (tactic : Tactic) (techs : List Technique) (dets : List Detection) :
    tacticCoveragePercent tactic techs dets = 100 * tacticCoverageSpecMean tactic techs dets := by
  unfold tacticCoveragePercent tacticCoverageSpecMean totalCoverage
  set ts := techs.filter fun tech => tech.tactics.contains tactic.shortName with hts
  by_cases h : ts.length = 0
  · simp [h]
  · have hpos : ts.length > 0 := Nat.pos_of_ne_zero h
    rw [if_pos hpos, if_neg h]
    ring

lemma slotPred_eq (d : Detection) (tid : String) :
    (d.technique1 == tid || d.technique2 == tid || d.technique3 == tid) =
      decide (1 ≤ slotMatchCount d tid) := by
  rw [Bool.eq_iff_iff, Bool.or_eq_true, Bool.or_eq_true, beq_iff_eq, beq_iff_eq, beq_iff_eq,
    decide_eq_true_eq]
  unfold slotMatchCount
  by_cases e1 : d.technique1 = tid <;> by_cases e2 : d.technique2 = tid <;>
    by_cases e3 : d.technique3 = tid <;> simp [e1, e2, e3]

/-- Claim C10: the detection count for a technique id is the number of
active detections with at least one matching reference slot, and a
detection whose slots match the id more than once still contributes exactly
one to the count. -/
theorem detectionCount_counts_detection_once (tid : String) (dets : List Detection) :
    (getDetectionRulesForTechnique dets tid =
      dets.countP fun d => d.isActive && decide (1 ≤ slotMatchCount d tid)) ∧
    ∀ d : Detection, d.isActive = true → 2 ≤ slotMatchCount d tid →
      getDetectionRulesForTechnique (d :: dets) tid =
        getDetectionRulesForTechnique dets tid + 1 := by
  constructor
  · unfold getDetectionRulesForTechnique
    rw [← List.countP_eq_length_filter]
    apply List.countP_congr
    intro d _
    rw [slotPred_eq d tid]
  · intro d hact hslot
    have h1 : 1 ≤ slotMatchCount d tid := le_trans (by norm_num) hslot
    unfold getDetectionRulesForTechnique
    rw [List.filter_cons]
    rw [slotPred_eq d tid]
    simp [hact, h1]

theorem detectionCount_counts_detection_once_witness :
    getDetectionRulesForTechnique [demoDetection] "T1059" =
      getDetectionRulesForTechnique [] "T1059" + 1 :=
  (detectionCount_counts_detection_once "T1059" []).2 demoDetection rfl (by decide)

/-- The fields read from the detection form by saveDetection, before the
trimming and upper-casing the source applies. -/
structure DetectionForm where
  name : String
  description : String
  platform : String
  severity : String
  isActive : Bool
  technique1 : String
  technique2 : String
  technique3 : String

/-- Outcome surfaced by saveDetection: the empty-name alert, or the normal
save path. -/
inductive SaveResult where
  | validationFailure
  | ok
deriving DecidableEq

/-- saveDetection from the source.  editingId models this.editingDetectionId,
genId the value generateId() would return, now the current ISO timestamp.
Note the replacement object of the edit branch has no createdAt field; the
create branch copies updatedAt into createdAt before pushing. -/
def saveDetection (form : DetectionForm) (editingId : Option String)
    (genId now : String) (dets : List Detection) : List Detection × SaveResult :=
  if jsTrim form.name = "" then (dets, SaveResult.validationFailure)
  else
    let detection : Detection :=
      { id := editingId.getD genId
        name := jsTrim form.name
        description := jsTrim form.description
        platform := form.platform
        severity := form.severity
        isActive := form.isActive
        technique1 := jsToUpper (jsTrim form.technique1)
        technique2 := jsToUpper (jsTrim form.technique2)
        technique3 := jsToUpper (jsTrim form.technique3)
        createdAt := none
        updatedAt := now }
    match editingId with
    | some eid =>
      match dets.findIdx? (fun d => d.id == eid) with
      | some i => (dets.set i detection, SaveResult.ok)
      | none => (dets, SaveResult.ok)
    | none => (dets ++ [{ detection with createdAt := some now }], SaveResult.ok)

/-- Claim C7: a create submission with an empty (trimmed) name is rejected
with a validation failure and no mutation; with a non-empty name exactly
one record is appended, carrying the generated id and equal createdAt and
updatedAt timestamps. -/
theorem saveDetection_create_spec (form : DetectionForm) (genId now : String)
    (dets : List Detection) :
    (jsTrim form.name = "" →
      saveDetection form none genId now dets = (dets, SaveResult.validationFailure)) ∧
    (jsTrim form.name ≠ "" →
      (saveDetection form none genId now dets).2 = SaveResult.ok ∧
      ∃ r : Detection, (saveDetection form none genId now dets).1 = dets ++ [r] ∧
        r.id = genId ∧ r.createdAt = some now ∧ r.updatedAt = now ∧
        r.name = jsTrim form.name) := by
  constructor
  · intro h
    unfold saveDetection
    rw [if_pos h]
  · intro h
    unfold saveDetection
    rw [if_neg h]
    exact ⟨rfl, ⟨_, rfl, rfl, rfl, rfl, rfl⟩⟩

/-- A sample form submission with surrounding whitespace in the name. -/
def demoForm : DetectionForm :=
  ⟨"  Suspicious PowerShell  ", "desc", "Windows", "high", true, "t1059", "", ""⟩

theorem saveDetection_create_spec_witness :
    (saveDetection demoForm none "det_9" "2024-06-01" []).2 = SaveResult.ok ∧
    (saveDetection demoForm none "det_9" "2024-06-01" []).1.length = 1 := by
  obtain ⟨hok, r, happ, -, -, -, -⟩ :=
    (saveDetection_create_spec demoForm "det_9" "2024-06-01" []).2 (by decide)
  refine ⟨hok, ?_⟩
  rw [happ]
  rfl

/-- Claim C8 (amended): an edit replaces the record in place, at the index
found for the editing id: the id is never regenerated, updatedAt is
refreshed, the length of the collection is unchanged and every other index
is untouched; but the replacement record carries no createdAt field (the
stored createdAt of the edited record is not retained). -/
theorem saveDetection_edit_spec (form : DetectionForm) (eid genId now : String)
    (dets : List Detection) (i : Nat)
    (hname : jsTrim form.name ≠ "")
    (hidx : dets.findIdx? (fun d => d.id == eid) = some i) :
    ∃ r : Detection,
      (saveDetection form (some eid) genId now dets).1 = dets.set i r ∧
      (saveDetection form (some eid) genId now dets).2 = SaveResult.ok ∧
      r.id = eid ∧ r.updatedAt = now ∧ r.createdAt = none ∧
      (saveDetection form (some eid) genId now dets).1.length = dets.length ∧
      ∀ j : Nat, j ≠ i → (saveDetection form (some eid) genId now dets).1[j]? = dets[j]? := by
  have hred : saveDetection form (some eid) genId now dets =
      (dets.set i
        { id := eid, name := jsTrim form.name, description := jsTrim form.description,
          platform := form.platform, severity := form.severity, isActive := form.isActive,
          technique1 := jsToUpper (jsTrim form.technique1),
          technique2 := jsToUpper (jsTrim form.technique2),
          technique3 := jsToUpper (jsTrim form.technique3),
          createdAt := none, updatedAt := now }, SaveResult.ok) := by
    unfold saveDetection
    rw [if_neg hname]
    simp only [hidx, Option.getD_some]
  rw [hred]
  refine ⟨_, rfl, rfl, rfl, rfl, rfl, by simp, ?_⟩
  intro j hj
  simp [List.getElem?_set_ne (Ne.symm hj)]

/-- A stored record about to be edited, holding a createdAt timestamp. -/
def demoEditTarget : Detection :=
  ⟨"id0", "Old name", "", "", "", true, "", "", "", some "2024-01-01", "2024-01-01"⟩

theorem saveDetection_edit_spec_witness :
    (saveDetection demoForm (some "id0") "gen" "2024-06-02" [demoEditTarget]).1.length =
      [demoEditTarget].length ∧
    (saveDetection demoForm (some "id0") "gen" "2024-06-02" [demoEditTarget]).2 =
      SaveResult.ok := by
  obtain ⟨r, -, hok, -, -, -, hlen, -⟩ :=
    saveDetection_edit_spec demoForm "id0" "gen" "2024-06-02" [demoEditTarget] 0
      (by decide) (by decide)
  exact ⟨hlen, hok⟩

/-- Claim C8 counterexample: editing the record demoEditTarget produces a
replacement whose createdAt is absent, so the stored createdAt value is not
retained through the edit. -/
theorem saveDetection_edit_drops_createdAt :
    ((saveDetection demoForm (some "id0") "gen" "2024-06-02" [demoEditTarget]).1.headD
        demoEditTarget).createdAt = none ∧
    demoEditTarget.createdAt = some "2024-01-01" ∧
    ((saveDetection demoForm (some "id0") "gen" "2024-06-02" [demoEditTarget]).1.headD
        demoEditTarget).createdAt ≠ demoEditTarget.createdAt := by
  refine ⟨by decide, rfl, by decide⟩

/-- Fragment of the JSON value universe sufficient to model what an imported
document can put in its detections field (the store itself normally holds a
detection array). -/
inductive JsonVal where
  | null
  | jbool (b : Bool)
  | jnum (q : ℚ)
  | jstr (s : String)
  | jarr (dets : List Detection)
deriving DecidableEq

/-- A parsed import document: detections holds the value of its detections
field, none when the field is absent. -/
structure ImportDoc where
  detections : Option JsonVal
deriving DecidableEq

/-- What importData surfaces to the user: the success alert or the catch
branch alert about the file format. -/
inductive ImportResult where
  | success
  | formatError
deriving DecidableEq

/-- JS truthiness of the detections field value (an empty array is truthy). -/
def jsTruthy : Option JsonVal → Bool
  | none => false
  | some JsonVal.null => false
  | some (JsonVal.jbool b) => b
  | some (JsonVal.jnum q) => q != 0
  | some (JsonVal.jstr s) => s != ""
  | some (JsonVal.jarr _) => true

/-- importData from the source, after the file has been read: parsed is the
result of JSON.parse (none when parsing threw), store the current value of
this.detections.  When data.detections is truthy the store is assigned that
value with no shape check; every non-throwing path reports success. -/
def importData (parsed : Option ImportDoc) (store : JsonVal) : JsonVal × ImportResult :=
  match parsed with
  | none => (store, ImportResult.formatError)
  | some doc =>
    if jsTruthy doc.detections then (doc.detections.getD JsonVal.null, ImportResult.success)
    else (store, ImportResult.success)

/-- Claim C6 counterexample: importing a document whose detections field is
the truthy non-array string "oops" replaces the store with that string and
reports success, contradicting the claim that such a document leaves the
store unchanged and reports an ImportFormatError. -/
theorem importData_nonarray_counterexample :
    (importData (some ⟨some (JsonVal.jstr "oops")⟩) (JsonVal.jarr [demoDetection])).1 ≠
        JsonVal.jarr [demoDetection] ∧
    (importData (some ⟨some (JsonVal.jstr "oops")⟩) (JsonVal.jarr [demoDetection])).2 =
        ImportResult.success := by
  exact ⟨by decide, rfl⟩

/-- Claim C6 (amended): importData reports a format error exactly when the
document is not valid JSON, and then leaves the store unchanged; a parsed
document with an absent or falsy detections field leaves the store
unchanged and still reports success; a truthy detections value of any
shape, array or not, replaces the store wholesale and reports success. -/
theorem importData_behavior (parsed : Option ImportDoc) (store : JsonVal) :
    ((importData parsed store).2 = ImportResult.formatError ↔ parsed = none) ∧
    (parsed = none → (importData parsed store).1 = store) ∧
    (∀ doc : ImportDoc, parsed = some doc → jsTruthy doc.detections = false →
      importData parsed store = (store, ImportResult.success)) ∧
    (∀ (doc : ImportDoc) (v : JsonVal), parsed = some doc → doc.detections = some v →
      jsTruthy (some v) = true → importData parsed store = (v, ImportResult.success)) := by
  refine ⟨?_, ?_, ?_, ?_⟩
  · cases parsed with
    | none => simp [importData]
    | some doc =>
      simp only [importData]
      constructor
      · intro h
        by_cases ht : jsTruthy doc.detections <;> simp [ht] at h
      · intro h
        exact absurd h (by simp)
  · intro h
    subst h
    rfl
  · intro doc h hf
    subst h
    simp [importData, hf]
  · intro doc v h hd ht
    subst h
    simp [importData, hd, ht]

theorem importData_behavior_witness :
    importData (some ⟨none⟩) (JsonVal.jarr [demoDetection]) =
      (JsonVal.jarr [demoDetection], ImportResult.success) :=
  (importData_behavior (some ⟨none⟩) (JsonVal.jarr [demoDetection])).2.2.1 ⟨none⟩ rfl rfl

/-- An entry of external_references: only the fields the source reads. -/
structure RawExternalRef where
  source_name : Option String
  external_id : Option String
  url : Option String
deriving DecidableEq

/-- An entry of kill_chain_phases. -/
structure RawKillChainPhase where
  kill_chain_name : Option String
  phase_name : Option String
deriving DecidableEq

/-- A raw STIX-like object of the corpus bundle: the fields the source
reads, each Option when the code tolerates or mishandles its absence;
revoked and deprecated carry the truthiness of the corresponding flags. -/
structure RawObject where
  type : Option String
  id : Option String
  name : Option String
  description : Option String
  x_mitre_shortname : Option String
  x_mitre_version : Option String
  modified : Option String
  created : Option String
  revoked : Bool
  deprecated : Bool
  external_references : Option (List RawExternalRef)
  kill_chain_phases : Option (List RawKillChainPhase)
  x_mitre_platforms : Option (List String)
deriving DecidableEq

/-- The raw bundle: objects is none when the document lacks an object
collection; spec_version mirrors the top-level STIX field. -/
structure AttackData where
  objects : Option (List RawObject)
  spec_version : Option String

/-- The observable outcome of processAttackData: the version label and the
two normalized collections. -/
structure NormResult where
  mitreVersion : String
  tactics : List Tactic
  techniques : List Technique
deriving DecidableEq

/-- Models Array.map over a callback that can throw: the first exception
aborts the whole map. -/
def mapExcept (f : α → Except ε β) : List α → Except ε (List β)
  | [] => Except.ok []
  | a :: l =>
    match f a with
    | Except.error e => Except.error e
    | Except.ok b =>
      match mapExcept f l with
      | Except.error e => Except.error e
      | Except.ok bs => Except.ok (b :: bs)

/-- The tactic mapping step of processAttackData. -/
def toTactic (o : RawObject) : Tactic :=
  ⟨o.id, o.name, o.x_mitre_shortname, o.description⟩

/-- Insertion step of the stable sort standing in for Array.prototype.sort
on tactics, with locale comparison modeled by code-point order (no claim
below depends on the relative order of two present names). -/
def tacticSortInsert (a : Tactic) : List Tactic → List Tactic
  | [] => [a]
  | b :: l =>
    if a.name.getD "" ≤ b.name.getD "" then a :: b :: l else b :: tacticSortInsert a l

/-- Stable insertion sort of tactics by display name. -/
def sortTacticsByName : List Tactic → List Tactic
  | [] => []
  | a :: l => tacticSortInsert a (sortTacticsByName l)

/-- The tactic extraction of processAttackData.  The sort comparator calls
localeCompare on each name; when a name is absent and the engine invokes
the comparator on that element (which the engines modeled here do whenever
the list has at least two elements), a TypeError is thrown. -/
def extractTactics (objs : List RawObject) : Except String (List Tactic) :=
  let ts := (objs.filter fun o => o.type == some "x-mitre-tactic").map toTactic
  if ts.length ≤ 1 then Except.ok ts
  else if ts.all fun t => t.name.isSome then Except.ok (sortTacticsByName ts)
  else Except.error "TypeError: localeCompare of undefined"

/-- The technique mapping step of processAttackData.  When a mitre-attack
reference exists but carries no external_id, techniqueId is undefined and
the source evaluates undefined.includes, which throws. -/
def buildTechnique (tech : RawObject) : Except String Technique :=
  let externalRefs := tech.external_references.getD []
  let mitreRef := externalRefs.find? fun ref => ref.source_name == some "mitre-attack"
  let techniqueIdOpt : Option String :=
    match mitreRef with
    | some ref => ref.external_id
    | none => some ""
  match techniqueIdOpt with
  | none => Except.error "TypeError: includes of undefined"
  | some techniqueId =>
    let isSubTechnique := techniqueId.data.contains '.'
    let parentId : Option String :=
      if isSubTechnique then some (String.mk ((splitCharsOnDot techniqueId.data).headD []))
      else none
    let killChainPhases := tech.kill_chain_phases.getD []
    let techniqueTactics :=
      (killChainPhases.filter fun phase => phase.kill_chain_name == some "mitre-attack").map
        fun phase => phase.phase_name
    Except.ok
      { id := techniqueId
        stixId := tech.id
        name := tech.name
        description := tech.description
        isSubTechnique := isSubTechnique
        parentId := parentId
        tactics := techniqueTactics
        platforms := tech.x_mitre_platforms.getD []
        url :=
          match mitreRef with
          | some ref => ref.url
          | none => some "" }

/-- Digits of a character list read as a base-ten number. -/
def digitsToNat (cs : List Char) : Nat :=
  cs.foldl (fun n c => n * 10 + (c.toNat - 48)) 0

/-- Models parseFloat on the strings the sort comparator feeds it: the
longest digit prefix is read as a number, its absence (empty string, or a
string not starting with a digit) is NaN, modeled as none.  The pieces fed
to parseFloat here come from splitting an id on dots, so they contain no
dot; signs and exponents do not occur in the ids this comparator sees. -/
def parseFloatNat (cs : List Char) : Option Nat :=
  let ds := cs.takeWhile Char.isDigit
  if ds.isEmpty then none else some (digitsToNat ds)

/-- The primary sort key of the technique sort:
parseFloat(id.substring(1).split(".")[0]). -/
def idMainNum (id : String) : Option Nat :=
  parseFloatNat ((splitCharsOnDot (id.data.drop 1)).headD [])

/-- The secondary sort key of the technique sort:
id.includes(".") ? parseFloat(id.split(".")[1]) : 0. -/
def idSubNum (id : String) : Option Nat :=
  if id.data.contains '.' then parseFloatNat ((splitCharsOnDot id.data).getD 1 [])
  else some 0

/-- The comparator of the technique sort, as a JS number with none for NaN:
in JS, NaN !== NaN, so any NaN key makes the comparator return NaN. -/
def techCmp (a b : Technique) : Option Int :=
  match idMainNum a.id, idMainNum b.id with
  | some x, some y =>
    if x ≠ y then some ((x : Int) - y)
    else
      match idSubNum a.id, idSubNum b.id with
      | some u, some v => some ((u : Int) - v)
      | _, _ => none
  | _, _ => none

/-- The boolean ordering the sort engine derives from the comparator: a
stays before b when the comparator result is at most zero, a NaN result
being treated as zero (ECMAScript SortCompare). -/
def techLe (a b : Technique) : Bool :=
  decide ((techCmp a b).getD 0 ≤ 0)

/-- Insertion step of the stable sort modeling Array.prototype.sort on the
technique list. -/
def techSortInsert (a : Technique) : List Technique → List Technique
  | [] => [a]
  | b :: l => if techLe a b then a :: b :: l else b :: techSortInsert a l

/-- Stable sort by the technique comparator: on a consistent comparator
(which techCmp is whenever the ids parse) every stable sort agrees, so
this insertion sort models the engine sort. -/
def sortTechniques : List Technique → List Technique
  | [] => []
  | a :: l => techSortInsert a (sortTechniques l)

/-- The filter applied to raw objects before the technique mapping. -/
def attackPatternFilter (o : RawObject) : Bool :=
  o.type == some "attack-pattern" && !o.revoked && !o.deprecated

/-- The technique extraction of processAttackData: keep non-revoked,
non-deprecated attack patterns, map them (which can throw), drop entries
whose resolved id is empty, and sort. -/
def processTechniques (objs : List RawObject) : Except String (List Technique) :=
  match mapExcept buildTechnique (objs.filter attackPatternFilter) with
  | Except.error e => Except.error e
  | Except.ok ts => Except.ok (sortTechniques (ts.filter fun t => t.id != ""))

/-- Abstract stand-in for the locale date formatting of the version label:
no claim depends on the formatted text, only on which branch is taken. -/
def fmtDate (s : String) : String := s

/-- The version label of processAttackData (canonical variant):
x-mitre-collection version and modified date, the identity object creation
date as fallback, and an optional STIX spec version suffix. -/
def versionLabel (objs : List RawObject) (spec_version : Option String) : String :=
  let collectionObj := objs.find? fun o => o.type == some "x-mitre-collection"
  let versionNumber :=
    match collectionObj with
    | some c =>
      match c.x_mitre_version with
      | some v => "v" ++ v
      | none => "v?"
    | none => "v?"
  let details0 :=
    match collectionObj with
    | some c =>
      match c.modified with
      | some m => "Updated: " ++ fmtDate m
      | none => ""
    | none => ""
  let details1 :=
    if details0 = "" then
      match objs.find? fun o =>
          o.type == some "identity" && o.name == some "The MITRE Corporation" with
      | some i =>
        match i.created with
        | some cr => "Created: " ++ fmtDate cr
        | none => ""
      | none => ""
    else details0
  let details :=
    match spec_version with
    | some sv => details1 ++ " | STIX " ++ sv
    | none => details1
  "MITRE ATT&CK " ++ versionNumber ++ (if details = "" then "" else " - " ++ details)

/-- processAttackData: the guard on a missing document or object collection
leaves the constructor state (the Loading... label and empty collections);
past the guard, the version label, tactics and techniques are computed, a
thrown exception propagating out. -/
def processAttackData (d : Option AttackData) : Except String NormResult :=
  match d with
  | none => Except.ok ⟨"Loading...", [], []⟩
  | some data =>
    match data.objects with
    | none => Except.ok ⟨"Loading...", [], []⟩
    | some objs => do
      let tactics ← extractTactics objs
      let techniques ← processTechniques objs
      pure ⟨versionLabel objs data.spec_version, tactics, techniques⟩

/-- The numeric key pair the comparator computes on a well-formed id. -/
def techKey (t : Technique) : Nat × Nat :=
  ((idMainNum t.id).getD 0, (idSubNum t.id).getD 0)

/-- Well-formedness of an id for the sort: both parseFloat applications of
the comparator produce numbers, as they do for ids of the shape
letter-digits or letter-digits dot digits. -/
def IdWF (id : String) : Prop :=
  (idMainNum id).isSome ∧ (idSubNum id).isSome

instance : DecidablePred IdWF := fun id =>
  decidable_of_iff ((idMainNum id).isSome ∧ (idSubNum id).isSome) Iff.rfl

/-- The lexicographic order on key pairs: primary number ascending, then
sub-technique suffix ascending. -/
def keyLe (a b : Technique) : Prop :=
  (techKey a).1 < (techKey b).1 ∨
    ((techKey a).1 = (techKey b).1 ∧ (techKey a).2 ≤ (techKey b).2)

lemma keyLe_total (a b : Technique) : keyLe a b ∨ keyLe b a := by
  unfold keyLe
  omega

lemma keyLe_trans {a b c : Technique} (h1 : keyLe a b) (h2 : keyLe b c) : keyLe a c := by
  unfold keyLe at h1 h2 ⊢
  omega

lemma techLe_iff_keyLe {a b : Technique} (ha : IdWF a.id) (hb : IdWF b.id) :
    techLe a b = true ↔ keyLe a b := by
  obtain ⟨ha1, ha2⟩ := ha
  obtain ⟨hb1, hb2⟩ := hb
  obtain ⟨x, hx⟩ := Option.isSome_iff_exists.mp ha1
  obtain ⟨u, hu⟩ := Option.isSome_iff_exists.mp ha2
  obtain ⟨y, hy⟩ := Option.isSome_iff_exists.mp hb1
  obtain ⟨v, hv⟩ := Option.isSome_iff_exists.mp hb2
  by_cases hxy : x = y
  · subst hxy
    unfold techLe techCmp keyLe techKey
    rw [hx, hy, hu, hv]
    simp only [ne_eq, not_true_eq_false, ite_false, Option.getD_some, decide_eq_true_eq,
      eq_self_iff_true, true_and]
    omega
  · unfold techLe techCmp keyLe techKey
    rw [hx, hy, hu, hv]
    simp only [ne_eq, hxy, not_false_eq_true, ite_true, Option.getD_some, decide_eq_true_eq,
      false_and, or_false]
    omega

lemma mem_techSortInsert {x a : Technique} {l : List Technique} :
    x ∈ techSortInsert a l ↔ x = a ∨ x ∈ l := by
  induction l with
  | nil => simp [techSortInsert]
  | cons b l ih =>
    unfold techSortInsert
    by_cases h : techLe a b = true
    · simp only [h, if_true]
      simp [or_comm, or_assoc, or_left_comm]
    · simp only [h, if_false]
      simp [ih]
      tauto

lemma techSortInsert_perm (a : Technique) (l : List Technique) :
    List.Perm (techSortInsert a l) (a :: l) := by
  induction l with
  | nil => exact List.Perm.refl [a]
  | cons b l ih =>
    unfold techSortInsert
    by_cases h : techLe a b = true
    · rw [if_pos h]
    · rw [if_neg h]
      exact (ih.cons b).trans (List.Perm.swap a b l)

lemma sortTechniques_perm (l : List Technique) : List.Perm (sortTechniques l) l := by
  induction l with
  | nil => exact List.Perm.refl []
  | cons a l ih =>
    unfold sortTechniques
    exact (techSortInsert_perm a (sortTechniques l)).trans (ih.cons a)

lemma pairwise_techSortInsert : ∀ {l : List Technique} {a : Technique},
    IdWF a.id → (∀ t ∈ l, IdWF t.id) → l.Pairwise keyLe →
      (techSortInsert a l).Pairwise keyLe := by
  intro l
  induction l with
  | nil => intro a _ _ _; simp [techSortInsert]
  | cons b l ih =>
    intro a ha hl hp
    have hb : IdWF b.id := hl b (List.mem_cons_self b l)
    have hl2 : ∀ t ∈ l, IdWF t.id := fun t ht => hl t (List.mem_cons_of_mem b ht)
    rw [List.pairwise_cons] at hp
    obtain ⟨hbl, hpl⟩ := hp
    unfold techSortInsert
    by_cases h : techLe a b = true
    · rw [if_pos h]
      have hab : keyLe a b := (techLe_iff_keyLe ha hb).mp h
      refine List.Pairwise.cons ?_ (List.Pairwise.cons hbl hpl)
      intro y hy
      rcases List.mem_cons.mp hy with rfl | hy2
      · exact hab
      · exact keyLe_trans hab (hbl y hy2)
    · rw [if_neg h]
      have hba : keyLe b a := by
        have hnab : ¬keyLe a b := fun hk => h ((techLe_iff_keyLe ha hb).mpr hk)
        rcases keyLe_total a b with h1 | h2
        · exact absurd h1 hnab
        · exact h2
      refine List.Pairwise.cons ?_ (ih ha hl2 hpl)
      intro y hy
      rcases mem_techSortInsert.mp hy with rfl | hy2
      · exact hba
      · exact hbl y hy2

lemma sortTechniques_pairwise : ∀ {l : List Technique}, (∀ t ∈ l, IdWF t.id) →
    (sortTechniques l).Pairwise keyLe := by
  intro l
  induction l with
  | nil => intro _; simp [sortTechniques]
  | cons a l ih =>
    intro hl
    have ha := hl a (List.mem_cons_self a l)
    have hl2 : ∀ t ∈ l, IdWF t.id := fun t ht => hl t (List.mem_cons_of_mem a ht)
    have hmem : ∀ t ∈ sortTechniques l, IdWF t.id := fun t ht =>
      hl2 t ((sortTechniques_perm l).mem_iff.mp ht)
    exact pairwise_techSortInsert ha hmem (ih hl2)

lemma sublist_techSortInsert (a : Technique) (l : List Technique) :
    l.Sublist (techSortInsert a l) := by
  induction l with
  | nil => simp [techSortInsert]
  | cons b l ih =>
    unfold techSortInsert
    by_cases h : techLe a b = true
    · rw [if_pos h]
      exact List.Sublist.cons a (List.Sublist.refl (b :: l))
    · rw [if_neg h]
      exact List.Sublist.cons₂ b ih

lemma pair_sublist_techSortInsert : ∀ {s : List Technique} {c b : Technique},
    techLe c b = true → b ∈ s → List.Sublist [c, b] (techSortInsert c s) := by
  intro s
  induction s with
  | nil => intro c b _ hb; cases hb
  | cons y s ih =>
    intro c b hcb hb
    unfold techSortInsert
    by_cases h : techLe c y = true
    · rw [if_pos h]
      exact List.Sublist.cons₂ c (List.singleton_sublist.mpr hb)
    · rw [if_neg h]
      rcases List.mem_cons.mp hb with rfl | hb2
      · exact absurd hcb h
      · exact List.Sublist.cons y (ih hcb hb2)

lemma sortTechniques_stable : ∀ {l : List Technique}, (∀ t ∈ l, IdWF t.id) →
    ∀ {a b : Technique}, List.Sublist [a, b] l → techKey a = techKey b →
      List.Sublist [a, b] (sortTechniques l) := by
  intro l
  induction l with
  | nil =>
    intro _ a b hs _
    exact absurd (List.Sublist.length_le hs) (by simp)
  | cons c l ih =>
    intro hl a b hs hk
    have hl2 : ∀ t ∈ l, IdWF t.id := fun t ht => hl t (List.mem_cons_of_mem c ht)
    unfold sortTechniques
    cases hs with
    | cons _ hs2 =>
      exact (ih hl2 hs2 hk).trans (sublist_techSortInsert c (sortTechniques l))
    | cons₂ _ hs2 =>
      have hbmem : b ∈ l := List.singleton_sublist.mp hs2
      have hwa : IdWF c.id := hl c (List.mem_cons_self c l)
      have hwb : IdWF b.id := hl2 b hbmem
      have hab : techLe c b = true := by
        apply (techLe_iff_keyLe hwa hwb).mpr
        exact Or.inr ⟨congrArg Prod.fst hk, le_of_eq (congrArg Prod.snd hk)⟩
      have hb2 : b ∈ sortTechniques l := (sortTechniques_perm l).mem_iff.mpr hbmem
      exact pair_sublist_techSortInsert hab hb2

lemma mem_of_mapExcept_ok {α β ε : Type} {f : α → Except ε β} :
    ∀ {l : List α} {bs : List β}, mapExcept f l = Except.ok bs →
      ∀ b ∈ bs, ∃ a ∈ l, f a = Except.ok b := by
  intro l
  induction l with
  | nil =>
    intro bs h b hb
    simp only [mapExcept, Except.ok.injEq] at h
    subst h
    cases hb
  | cons a l ih =>
    intro bs h b hb
    cases hfa : f a with
    | error e => simp [mapExcept, hfa] at h
    | ok b0 =>
      cases hml : mapExcept f l with
      | error e => simp [mapExcept, hfa, hml] at h
      | ok bs0 =>
        simp only [mapExcept, hfa, hml, Except.ok.injEq] at h
        subst h
        rcases List.mem_cons.mp hb with rfl | hb2
        · exact ⟨a, List.mem_cons_self a l, hfa⟩
        · obtain ⟨a2, ha2, hfa2⟩ := ih hml b hb2
          exact ⟨a2, List.mem_cons_of_mem a ha2, hfa2⟩

/-- Claim C4: every technique of the normalized collection arises from an
input object whose revoked and deprecated flags are both false (and whose
type is attack-pattern): no revoked or deprecated entry ever reaches the
techniques collection, however well-formed its other fields are. -/
theorem techniques_exclude_revoked_deprecated
    (objs : List RawObject) (techs : List Technique)
    (h : processTechniques objs = Except.ok techs) :
    ∀ t ∈ techs, ∃ o ∈ objs, o.revoked = false ∧ o.deprecated = false ∧
      o.type = some "attack-pattern" ∧ buildTechnique o = Except.ok t := by
  intro t ht
  unfold processTechniques at h
  cases hm : mapExcept buildTechnique (objs.filter attackPatternFilter) with
  | error e => rw [hm] at h; simp at h
  | ok ts =>
    rw [hm] at h
    simp only [Except.ok.injEq] at h
    subst h
    have ht2 : t ∈ ts.filter (fun t => t.id != "") :=
      (sortTechniques_perm (ts.filter fun t => t.id != "")).mem_iff.mp ht
    have ht3 : t ∈ ts := List.mem_of_mem_filter ht2
    obtain ⟨o, ho, hfo⟩ := mem_of_mapExcept_ok hm t ht3
    have hof := List.mem_filter.mp ho
    have hapf := hof.2
    unfold attackPatternFilter at hapf
    simp only [Bool.and_eq_true, Bool.not_eq_true', beq_iff_eq] at hapf
    exact ⟨o, hof.1, hapf.1.2, hapf.2, hapf.1.1, hfo⟩

/-- A raw attack-pattern with a resolvable id, neither revoked nor
deprecated. -/
def demoRawTechnique : RawObject :=
  { type := some "attack-pattern", id := some "attack-pattern--t1059",
    name := some "Command and Scripting Interpreter", description := some "",
    x_mitre_shortname := none, x_mitre_version := none, modified := none, created := none,
    revoked := false, deprecated := false,
    external_references := some [⟨some "mitre-attack", some "T1059", some ""⟩],
    kill_chain_phases := some [⟨some "mitre-attack", some "execution"⟩],
    x_mitre_platforms := some ["Windows"] }

/-- The technique demoRawTechnique normalizes to. -/
def demoNormTechnique : Technique :=
  ⟨"T1059", some "attack-pattern--t1059", some "Command and Scripting Interpreter",
    some "", false, none, [some "execution"], ["Windows"], some ""⟩

theorem techniques_exclude_revoked_deprecated_witness :
    demoRawTechnique.revoked = false ∧ demoRawTechnique.deprecated = false := by
  obtain ⟨o, ho, hrev, hdep, -, -⟩ :=
    techniques_exclude_revoked_deprecated [demoRawTechnique] [demoNormTechnique] rfl
      demoNormTechnique (List.mem_singleton.mpr rfl)
  rw [List.mem_singleton] at ho
  subst ho
  exact ⟨hrev, hdep⟩

/-- Claim C5: whenever the comparator keys of the normalized ids are
numeric (IdWF), the technique list produced by processTechniques is sorted
by the lexicographic key: leading number ascending, then sub-technique
suffix ascending (0 without a suffix); the sort is stable, as any two
equal-key elements in input order stay in that order; and at the key level
a sub-technique id sorts strictly after its parent and strictly before the
next family, as the T1059 example shows. -/
theorem techniques_sorted_by_id_key :
    (∀ (objs : List RawObject) (techs : List Technique),
      processTechniques objs = Except.ok techs → (∀ t ∈ techs, IdWF t.id) →
        techs.Pairwise keyLe) ∧
    (∀ l : List Technique, (∀ t ∈ l, IdWF t.id) →
      List.Perm (sortTechniques l) l ∧
      ∀ a b : Technique, List.Sublist [a, b] l → techKey a = techKey b →
        List.Sublist [a, b] (sortTechniques l)) ∧
    ((idMainNum "T1059").getD 0 = (idMainNum "T1059.001").getD 0 ∧
      (idSubNum "T1059").getD 0 < (idSubNum "T1059.001").getD 0 ∧
      (idMainNum "T1059.001").getD 0 < (idMainNum "T1060").getD 0) := by
  refine ⟨?_, ?_, by decide, by decide, by decide⟩
  · intro objs techs h hwf
    unfold processTechniques at h
    cases hm : mapExcept buildTechnique (objs.filter attackPatternFilter) with
    | error e => rw [hm] at h; simp at h
    | ok ts =>
      rw [hm] at h
      simp only [Except.ok.injEq] at h
      subst h
      apply sortTechniques_pairwise
      intro t ht
      exact hwf t ((sortTechniques_perm _).mem_iff.mpr ht)
  · intro l hwf
    exact ⟨sortTechniques_perm l, fun a b hs hk => sortTechniques_stable hwf hs hk⟩

theorem techniques_sorted_by_id_key_witness :
    List.Perm (sortTechniques [demoTechnique]) [demoTechnique] :=
  (techniques_sorted_by_id_key.2.1 [demoTechnique] (by decide)).1

/-- The raw attack-pattern whose mitre-attack reference lacks an
external_id. -/
def badRefObject : RawObject :=
  { type := some "attack-pattern", id := some "attack-pattern--bad",
    name := some "Broken", description := none, x_mitre_shortname := none,
    x_mitre_version := none, modified := none, created := none,
    revoked := false, deprecated := false,
    external_references := some [⟨some "mitre-attack", none, none⟩],
    kill_chain_phases := none, x_mitre_platforms := none }

/-- Claim C9 counterexample: the normalizer throws on this well-typed but
partial input: an attack-pattern carrying a mitre-attack reference without
an external_id makes the source evaluate undefined.includes, a TypeError,
instead of defaulting. -/
theorem processAttackData_throws_on_missing_external_id :
    processAttackData (some ⟨some [badRefObject], none⟩) =
      Except.error "TypeError: includes of undefined" := by
  rfl

/-- Claim C9 (amended): the normalizer does not fault on an absent document
or object collection, where it yields empty collections and the placeholder
label; and a technique with absent external_references, kill_chain_phases
and x_mitre_platforms is built without fault, the optional collections
defaulting to empty (its id resolves to the empty string, so the entry is
later filtered out rather than faulted).  The normalizer is however not
throw-free, as the counterexample above shows. -/
theorem normalizer_defaults_spec :
    (processAttackData none = Except.ok ⟨"Loading...", [], []⟩) ∧
    (∀ sv : Option String, processAttackData (some ⟨none, sv⟩) =
      Except.ok ⟨"Loading...", [], []⟩) ∧
    (∀ o : RawObject, o.external_references = none → o.kill_chain_phases = none →
      o.x_mitre_platforms = none →
      buildTechnique o = Except.ok
        ⟨"", o.id, o.name, o.description, false, none, [], [], some ""⟩) := by
  refine ⟨rfl, fun sv => rfl, ?_⟩
  intro o h1 h2 h3
  unfold buildTechnique
  rw [h1, h2, h3]
  rfl

theorem normalizer_defaults_spec_witness :
    buildTechnique
        ⟨some "attack-pattern", some "x1", some "Name", none, none, none, none,
          none, false, false, none, none, none⟩ =
      Except.ok ⟨"", some "x1", some "Name", none, false, none, [], [], some ""⟩ :=
  normalizer_defaults_spec.2.2
    ⟨some "attack-pattern", some "x1", some "Name", none, none, none, none,
      none, false, false, none, none, none⟩ rfl rfl rfl
